import Mathlib

/-!
Verification development for the ferrocious timeline/interpolation core.

The definitions below are a shallow embedding of
`src/core/mutator/timestamp.rs` and `src/core/interpolate/interpolators.rs`:

* `u32` fields and arguments are modelled as `Nat` (Rust debug builds abort
  on overflow, so the non-wrapping model agrees with the source on every
  execution that does not abort; no claim concerns wrap-around inputs).
* `f32` values are modelled as `ℚ` (exact arithmetic in place of IEEE
  rounding); `u32 as f32` conversion becomes the `Nat → ℚ` coercion.
* Rust panics (`panic!`, out-of-bounds indexing) are modelled by returning
  `none` from an `Option`-valued function.
-/

/-- Model of `TimeStamp` (`src/core/mutator/timestamp.rs`): a
minute/second/frame triple of `u32` fields. -/
structure TimeStamp where
  minute : Nat
  second : Nat
  frame : Nat
deriving DecidableEq, Repr

namespace TimeStamp

/-- `TimeStamp::new`. -/
def new (minute second frame : Nat) : TimeStamp :=
  { minute := minute, second := second, frame := frame }

/-- `TimeStamp::as_num_frames`: `minute * 60 * fps + second * fps + frame`. -/
def as_num_frames (ts : TimeStamp) (fps : Nat) : Nat :=
  ts.minute * 60 * fps + ts.second * fps + ts.frame

/-- `TimeStamp::increment`: the source mutates in place; here the updated
value is returned.  `frame += 1`; carry frame→second when `frame >= fps`;
then carry second→minute when `second > 59`. -/
def increment (ts : TimeStamp) (fps : Nat) : TimeStamp :=
  let frame := ts.frame + 1
  let frame2 := if frame ≥ fps then 0 else frame
  let second := if frame ≥ fps then ts.second + 1 else ts.second
  let second2 := if second > 59 then 0 else second
  let minute := if second > 59 then ts.minute + 1 else ts.minute
  { minute := minute, second := second2, frame := frame2 }

/-- `PartialOrd::lt` for `TimeStamp`: lexicographic on (minute, second,
frame), written exactly as the source's comparison chain. -/
def lt (a b : TimeStamp) : Bool :=
  b.minute > a.minute
    || (b.minute == a.minute
        && (b.second > a.second
            || (b.second == a.second && b.frame > a.frame)))

/-- `PartialOrd::le` for `TimeStamp`: `self < other || self == other`. -/
def le (a b : TimeStamp) : Bool :=
  lt a b || decide (a = b)

/-- `PartialOrd::gt` for `TimeStamp`. -/
def gt (a b : TimeStamp) : Bool :=
  b.minute < a.minute
    || (b.minute == a.minute
        && (b.second < a.second
            || (b.second == a.second && b.frame < a.frame)))

/-- `PartialOrd::ge` for `TimeStamp`: `self > other || self == other`. -/
def ge (a b : TimeStamp) : Bool :=
  gt a b || decide (a = b)

end TimeStamp

/-- The `Interpolatable` trait: the single capability `lerp` needed by every
interpolator variant. -/
class Interpolatable (T : Type) where
  lerp : T → T → ℚ → T

/-- `impl Interpolatable for f32`: `self + (other - self) * t`, with `f32`
modelled as `ℚ`. -/
instance : Interpolatable ℚ where
  lerp a b t := a + (b - a) * t

/-- The `EasingFunction` enum. -/
inductive EasingFunction where
  | Linear
  | EaseIn
  | EaseOut
  | EaseInOut
deriving DecidableEq, Repr

/-- `f32::clamp(0.0, 1.0)` as used by `EasingFunction::ease`. -/
def clamp01 (t : ℚ) : ℚ :=
  if t < 0 then 0 else if t > 1 then 1 else t

/-- `EasingFunction::ease`: clamp the input to `[0,1]`, then apply the
variant's formula. -/
def EasingFunction.ease (f : EasingFunction) (t : ℚ) : ℚ :=
  let t := clamp01 t
  match f with
  | .Linear => t
  | .EaseIn => t * t
  | .EaseOut => t * (2 - t)
  | .EaseInOut => if t < 1/2 then 2 * t * t else -1 + (4 - 2 * t) * t

/-- The `Interpolator<T>` enum.  `from`/`to`/`end` are Lean keywords, hence
the trailing underscores. -/
inductive Interpolator (T : Type) where
  | Constant (value : T)
  | Linear (from_ to_ : T) (start end_ : TimeStamp) (easing : EasingFunction)
  | Keyframes (keyframes : List (TimeStamp × T)) (easing : EasingFunction)
  | Cubic (p0 p1 p2 p3 : T) (start end_ : TimeStamp)
  | Bezier (points : List T) (start end_ : TimeStamp)

/-- One `windows(2).map(|w| w[0].lerp(&w[1], t))` pass of `de_casteljau`. -/
def pairLerp {T : Type} [Interpolatable T] (t : ℚ) : List T → List T
  | a :: b :: rest => Interpolatable.lerp a b t :: pairLerp t (b :: rest)
  | _ => []

theorem pairLerp_length {T : Type} [Interpolatable T] (t : ℚ) :
    (l : List T) → (pairLerp t l).length = l.length - 1
  | [] => rfl
  | [_] => rfl
  | a :: b :: rest => by
    simp [pairLerp, pairLerp_length t (b :: rest)]

/-- The `while working.len() > 1` reduction loop of `de_casteljau`. -/
def dcLoop {T : Type} [Interpolatable T] (t : ℚ) (working : List T) : List T :=
  if _h : working.length > 1 then dcLoop t (pairLerp t working) else working
termination_by working.length
decreasing_by
  rw [pairLerp_length]
  omega

/-- `de_casteljau`: evaluate a Bezier curve by repeated pairwise `lerp`.
A single point returns itself; the empty list panics (`working.remove(0)`
on an empty vector), modelled as `none`. -/
def deCasteljau {T : Type} [Interpolatable T] (points : List T) (t : ℚ) :
    Option T :=
  match points with
  | [p] => some p
  | _ => (dcLoop t points).head?

/-- `Interpolator::compute_progress`: linear progress in `[0,1]` between two
timestamps, with the `u32 as f32` conversions modelled as `Nat → ℚ` casts. -/
def Interpolator.compute_progress (current start end_ : TimeStamp)
    (fps : Nat) : ℚ :=
  if start = end_ then 1
  else
    let current_frames : ℚ := (current.as_num_frames fps : ℚ)
    let start_frames : ℚ := (start.as_num_frames fps : ℚ)
    let end_frames : ℚ := (end_.as_num_frames fps : ℚ)
    if current_frames ≤ start_frames then 0
    else if current_frames ≥ end_frames then 1
    else (current_frames - start_frames) / (end_frames - start_frames)

/-- The bracketing scan in the `Keyframes` arm of `Interpolator::at`:
`prev_idx` tracks the last index with `kf_time <= time`; the loop breaks,
recording `next_idx`, at the first index with `kf_time >= time` while
`next_idx == 0` (the assignment to `next_idx` is always followed by
`break`, so the `next_idx` argument stays `0` throughout the loop). -/
def kfScan {T : Type} (time : TimeStamp) :
    Nat → Nat → Nat → List (TimeStamp × T) → Nat × Nat
  | _, prev_idx, next_idx, [] => (prev_idx, next_idx)
  | i, prev_idx, next_idx, (kf_time, _) :: rest =>
    let prev_idx := if TimeStamp.le kf_time time then i else prev_idx
    if TimeStamp.ge kf_time time && next_idx == 0 then (prev_idx, i)
    else kfScan time (i + 1) prev_idx next_idx rest

/-- `Interpolator::at`: evaluate the interpolator at a time.  `none` models
the `panic!` on an empty keyframe list and the out-of-bounds panic of
`de_casteljau` on an empty point list; every other path yields `some`.
In the `Keyframes` arm, `prev_idx`/`next_idx` produced by the scan are
always in range, so the `getD` defaults are never used. -/
def Interpolator.at {T : Type} [Interpolatable T] :
    Interpolator T → TimeStamp → Nat → Option T
  | .Constant value, _, _ => some value
  | .Linear from_ to_ start end_ easing, time, fps =>
    let progress := Interpolator.compute_progress time start end_ fps
    let eased := easing.ease progress
    some (Interpolatable.lerp from_ to_ eased)
  | .Keyframes keyframes easing, time, fps =>
    match keyframes with
    | [] => none
    | k0 :: rest =>
      let pn := kfScan time 0 0 0 (k0 :: rest)
      let prev_idx := pn.1
      let next_idx := pn.2
      if next_idx == 0 || prev_idx == (k0 :: rest).length - 1 then
        some ((k0 :: rest).getLast (List.cons_ne_nil k0 rest)).2
      else if TimeStamp.le time k0.1 then
        some k0.2
      else
        let prevKf := (k0 :: rest).getD prev_idx k0
        let nextKf := (k0 :: rest).getD next_idx k0
        let progress :=
          Interpolator.compute_progress time prevKf.1 nextKf.1 fps
        let eased := easing.ease progress
        some (Interpolatable.lerp prevKf.2 nextKf.2 eased)
  | .Cubic p0 p1 p2 p3 start end_, time, fps =>
    let t := Interpolator.compute_progress time start end_ fps
    let q0 := Interpolatable.lerp p0 p1 t
    let q1 := Interpolatable.lerp p1 p2 t
    let q2 := Interpolatable.lerp p2 p3 t
    let r0 := Interpolatable.lerp q0 q1 t
    let r1 := Interpolatable.lerp q1 q2 t
    some (Interpolatable.lerp r0 r1 t)
  | .Bezier points start end_, time, fps =>
    let t := Interpolator.compute_progress time start end_ fps
    deCasteljau points t

/-- `InterpolatorBuilder<T, State>`: the staging phantom parameter is
dropped; `to_` stays an `Option` exactly as in the source. -/
structure InterpolatorBuilder (T : Type) where
  from_ : T
  to_ : Option T
  easing : Option EasingFunction
  control_points : List T

/-- `Interpolator::from`: the builder entry point. -/
def Interpolator.from_ {T : Type} (value : T) : InterpolatorBuilder T :=
  { from_ := value, to_ := none, easing := none, control_points := [] }

/-- `InterpolatorBuilder::to`. -/
def InterpolatorBuilder.to {T : Type} (b : InterpolatorBuilder T) (to_ : T) :
    InterpolatorBuilder T :=
  { from_ := b.from_, to_ := some to_, easing := none, control_points := [] }

/-- `InterpolatorBuilder::ease`. -/
def InterpolatorBuilder.ease {T : Type} (b : InterpolatorBuilder T)
    (easing : EasingFunction) : InterpolatorBuilder T :=
  { b with easing := some easing }

/-- `InterpolatorBuilder::through`: push one control point. -/
def InterpolatorBuilder.through {T : Type} (b : InterpolatorBuilder T)
    (control_point : T) : InterpolatorBuilder T :=
  { b with control_points := b.control_points ++ [control_point] }

/-- `InterpolatorBuilder::over`: dispatch on the number of control points
(`0` → `Linear`, `2` → `Cubic` with the two pops restoring insertion order,
anything else → `Bezier` over `[from, ...controls, to]`).  `none` models the
`unwrap` panic when `to_` was never supplied (unreachable through the staged
API). -/
def InterpolatorBuilder.over {T : Type} (b : InterpolatorBuilder T)
    (start end_ : TimeStamp) : Option (Interpolator T) :=
  match b.to_ with
  | none => none
  | some to_ =>
    match b.control_points with
    | [] =>
      some (.Linear b.from_ to_ start end_
        (b.easing.getD EasingFunction.Linear))
    | [p1, p2] => some (.Cubic b.from_ p1 p2 to_ start end_)
    | points => some (.Bezier (b.from_ :: points ++ [to_]) start end_)

/-- A staged-builder construction `from(a).to(b)`, optionally `.ease(f)`,
followed by one `.through` call per element of `cs`, in order. -/
def buildChain {T : Type} (a b : T) (e : Option EasingFunction)
    (cs : List T) : InterpolatorBuilder T :=
  cs.foldl InterpolatorBuilder.through
    (match e with
      | none => (Interpolator.from_ a).to b
      | some f => ((Interpolator.from_ a).to b).ease f)

/-! ### Helper lemmas -/

theorem rat_lerp (a b t : ℚ) : Interpolatable.lerp a b t = a + (b - a) * t :=
  rfl

theorem rat_lerp_zero (a b : ℚ) : Interpolatable.lerp a b 0 = a := by
  rw [rat_lerp]; ring

theorem rat_lerp_one (a b : ℚ) : Interpolatable.lerp a b 1 = b := by
  rw [rat_lerp]; ring

theorem clamp01_nonneg (t : ℚ) : 0 ≤ clamp01 t := by
  simp only [clamp01]; split_ifs <;> linarith

theorem clamp01_le_one (t : ℚ) : clamp01 t ≤ 1 := by
  simp only [clamp01]; split_ifs <;> linarith

theorem clamp01_mono {t u : ℚ} (h : t ≤ u) : clamp01 t ≤ clamp01 u := by
  simp only [clamp01]; split_ifs <;> linarith

theorem clamp01_idem (t : ℚ) : clamp01 (clamp01 t) = clamp01 t := by
  simp only [clamp01]; split_ifs <;> linarith

theorem ease_zero (f : EasingFunction) : f.ease 0 = 0 := by
  cases f <;> norm_num [EasingFunction.ease, clamp01]

theorem ease_one (f : EasingFunction) : f.ease 1 = 1 := by
  cases f <;> norm_num [EasingFunction.ease, clamp01]

theorem ease_mono (f : EasingFunction) {t u : ℚ} (h : t ≤ u) :
    f.ease t ≤ f.ease u := by
  have hab : clamp01 t ≤ clamp01 u := clamp01_mono h
  have h0a : 0 ≤ clamp01 t := clamp01_nonneg t
  have h0b : 0 ≤ clamp01 u := clamp01_nonneg u
  have h1a : clamp01 t ≤ 1 := clamp01_le_one t
  have h1b : clamp01 u ≤ 1 := clamp01_le_one u
  set a := clamp01 t with ha
  set b := clamp01 u with hb
  cases f <;> simp only [EasingFunction.ease, ← ha, ← hb]
  · exact hab
  · exact mul_self_le_mul_self h0a hab
  · nlinarith [mul_nonneg (sub_nonneg.mpr hab)
      (by linarith : (0 : ℚ) ≤ 2 - a - b)]
  · split_ifs with hA hB hB
    · nlinarith [mul_nonneg (sub_nonneg.mpr hab) (by linarith : (0 : ℚ) ≤ a + b)]
    · nlinarith [mul_nonneg h0a (by linarith : (0 : ℚ) ≤ 1/2 - a),
        mul_nonneg (by linarith : (0 : ℚ) ≤ b - 1/2)
          (by linarith : (0 : ℚ) ≤ 3/2 - b)]
    · linarith
    · nlinarith [mul_nonneg (sub_nonneg.mpr hab)
        (by linarith : (0 : ℚ) ≤ 2 - a - b)]

theorem ease_clamp (f : EasingFunction) (t : ℚ) :
    f.ease t = f.ease (clamp01 t) := by
  cases f <;> simp only [EasingFunction.ease, clamp01_idem]

theorem compute_progress_start_end (current start : TimeStamp) (fps : Nat) :
    Interpolator.compute_progress current start start fps = 1 := by
  simp [Interpolator.compute_progress]

theorem compute_progress_before (current start end_ : TimeStamp) (fps : Nat)
    (hne : start ≠ end_)
    (h : current.as_num_frames fps ≤ start.as_num_frames fps) :
    Interpolator.compute_progress current start end_ fps = 0 := by
  have hq : ((current.as_num_frames fps : ℚ) ≤ (start.as_num_frames fps : ℚ)) := by
    exact_mod_cast h
  simp [Interpolator.compute_progress, hne, hq]

theorem compute_progress_after (current start end_ : TimeStamp) (fps : Nat)
    (hne : start ≠ end_)
    (h1 : start.as_num_frames fps < current.as_num_frames fps)
    (h2 : end_.as_num_frames fps ≤ current.as_num_frames fps) :
    Interpolator.compute_progress current start end_ fps = 1 := by
  have hq1 : ¬ ((current.as_num_frames fps : ℚ) ≤ (start.as_num_frames fps : ℚ)) := by
    exact_mod_cast not_le.mpr h1
  have hq2 : ((end_.as_num_frames fps : ℚ) ≤ (current.as_num_frames fps : ℚ)) := by
    exact_mod_cast h2
  simp [Interpolator.compute_progress, hne, hq1, hq2]

theorem compute_progress_mid (current start end_ : TimeStamp) (fps : Nat)
    (h1 : start.as_num_frames fps < current.as_num_frames fps)
    (h2 : current.as_num_frames fps < end_.as_num_frames fps) :
    Interpolator.compute_progress current start end_ fps =
      ((current.as_num_frames fps : ℚ) - (start.as_num_frames fps : ℚ))
        / ((end_.as_num_frames fps : ℚ) - (start.as_num_frames fps : ℚ)) := by
  have hne : start ≠ end_ := by
    intro hEq
    rw [hEq] at h1
    omega
  have hq1 : ¬ ((current.as_num_frames fps : ℚ) ≤ (start.as_num_frames fps : ℚ)) := by
    exact_mod_cast not_le.mpr h1
  have hq2 : ¬ ((end_.as_num_frames fps : ℚ) ≤ (current.as_num_frames fps : ℚ)) := by
    exact_mod_cast not_le.mpr h2
  simp [Interpolator.compute_progress, hne, hq1, hq2]

theorem dcLoop_step {T : Type} [Interpolatable T] (t : ℚ) (l : List T)
    (h : l.length > 1) : dcLoop t l = dcLoop t (pairLerp t l) := by
  rw [dcLoop]
  simp [h]

theorem dcLoop_fix {T : Type} [Interpolatable T] (t : ℚ) (l : List T)
    (h : ¬ l.length > 1) : dcLoop t l = l := by
  rw [dcLoop]
  simp [h]

/-! ### Claim theorems -/

/-- C2 counterexample: the claim "`at(start, fps) == from` for every Linear
interpolator" fails on the degenerate range `start == end`: there
`compute_progress` returns `1`, so `at(start)` is `to = 10`, not
`from = 0`. -/
theorem linear_at_degenerate_range_cex :
    ¬ ((Interpolator.Linear (0 : ℚ) 10 (TimeStamp.new 0 0 0)
      (TimeStamp.new 0 0 0) .Linear).at (TimeStamp.new 0 0 0) 24 = some 0) := by
  norm_num [Interpolator.at, Interpolator.compute_progress,
    EasingFunction.ease, clamp01, rat_lerp]

/-- C2 (amended): for every Linear interpolator whose start timestamp denotes
strictly fewer frames than its end timestamp at the evaluation fps,
`at(start, fps)` equals `from` exactly and `at(end, fps)` equals `to`
exactly, for every easing. -/
theorem linear_at_endpoints (from_ to_ : ℚ) (start end_ : TimeStamp)
    (easing : EasingFunction) (fps : Nat)
    (h : start.as_num_frames fps < end_.as_num_frames fps) :
    (Interpolator.Linear from_ to_ start end_ easing).at start fps
        = some from_
    ∧ (Interpolator.Linear from_ to_ start end_ easing).at end_ fps
        = some to_ := by
  have hne : start ≠ end_ := by
    intro hEq
    rw [hEq] at h
    omega
  constructor
  · simp [Interpolator.at,
      compute_progress_before start start end_ fps hne le_rfl, ease_zero,
      rat_lerp_zero]
  · simp [Interpolator.at,
      compute_progress_after end_ start end_ fps hne h le_rfl, ease_one,
      rat_lerp_one]

/-- C2 witness: concrete instance of `linear_at_endpoints`. -/
theorem linear_at_endpoints_witness :
    (TimeStamp.new 0 0 0).as_num_frames 24
        < (TimeStamp.new 0 1 0).as_num_frames 24
    ∧ (Interpolator.Linear (0 : ℚ) 10 (TimeStamp.new 0 0 0)
        (TimeStamp.new 0 1 0) .EaseInOut).at (TimeStamp.new 0 0 0) 24
        = some 0
    ∧ (Interpolator.Linear (0 : ℚ) 10 (TimeStamp.new 0 0 0)
        (TimeStamp.new 0 1 0) .EaseInOut).at (TimeStamp.new 0 1 0) 24
        = some 10 :=
  ⟨by decide,
    (linear_at_endpoints 0 10 (TimeStamp.new 0 0 0) (TimeStamp.new 0 1 0)
      .EaseInOut 24 (by decide)).1,
    (linear_at_endpoints 0 10 (TimeStamp.new 0 0 0) (TimeStamp.new 0 1 0)
      .EaseInOut 24 (by decide)).2⟩

/-- C6: `compute_progress` returns `1` when `start == end`; otherwise it
returns `0` when the current frame count is at most the start's, `1` when it
is past the start's and at least the end's, and the exact fraction
`(current - start) / (end - start)`, a value in `[0, 1]`, strictly between
them; and in the Linear arm easing is applied only to the progress computed
this way. -/
theorem compute_progress_clamps (current start end_ : TimeStamp) (fps : Nat) :
    (start = end_ →
      Interpolator.compute_progress current start end_ fps = 1)
    ∧ (start ≠ end_ →
        current.as_num_frames fps ≤ start.as_num_frames fps →
        Interpolator.compute_progress current start end_ fps = 0)
    ∧ (start ≠ end_ →
        start.as_num_frames fps < current.as_num_frames fps →
        end_.as_num_frames fps ≤ current.as_num_frames fps →
        Interpolator.compute_progress current start end_ fps = 1)
    ∧ (start.as_num_frames fps < current.as_num_frames fps →
        current.as_num_frames fps < end_.as_num_frames fps →
        Interpolator.compute_progress current start end_ fps =
          ((current.as_num_frames fps : ℚ) - (start.as_num_frames fps : ℚ))
            / ((end_.as_num_frames fps : ℚ) - (start.as_num_frames fps : ℚ))
        ∧ 0 ≤ Interpolator.compute_progress current start end_ fps
        ∧ Interpolator.compute_progress current start end_ fps ≤ 1)
    ∧ (∀ (from_ to_ : ℚ) (easing : EasingFunction),
        (Interpolator.Linear from_ to_ start end_ easing).at current fps
          = some (Interpolatable.lerp from_ to_
              (easing.ease
                (Interpolator.compute_progress current start end_ fps)))) := by
  refine ⟨?_, ?_, ?_, ?_, ?_⟩
  · intro hEq
    subst hEq
    exact compute_progress_start_end current start fps
  · exact compute_progress_before current start end_ fps
  · exact compute_progress_after current start end_ fps
  · intro h1 h2
    have hs : ((start.as_num_frames fps : ℚ) < (current.as_num_frames fps : ℚ)) := by
      exact_mod_cast h1
    have he : ((current.as_num_frames fps : ℚ) < (end_.as_num_frames fps : ℚ)) := by
      exact_mod_cast h2
    refine ⟨compute_progress_mid current start end_ fps h1 h2, ?_, ?_⟩
    · rw [compute_progress_mid current start end_ fps h1 h2]
      apply div_nonneg <;> linarith
    · rw [compute_progress_mid current start end_ fps h1 h2]
      rw [div_le_one (by linarith)]
      linarith
  · intro from_ to_ easing
    simp [Interpolator.at]

/-- C6 witness: concrete instances of `compute_progress_clamps`. -/
theorem compute_progress_clamps_witness :
    Interpolator.compute_progress (TimeStamp.new 0 0 5) (TimeStamp.new 0 1 0)
        (TimeStamp.new 0 1 0) 24 = 1
    ∧ Interpolator.compute_progress (TimeStamp.new 0 0 0) (TimeStamp.new 0 1 0)
        (TimeStamp.new 0 2 0) 24 = 0
    ∧ Interpolator.compute_progress (TimeStamp.new 0 2 0) (TimeStamp.new 0 0 0)
        (TimeStamp.new 0 1 0) 24 = 1
    ∧ (Interpolator.compute_progress (TimeStamp.new 0 0 12)
          (TimeStamp.new 0 0 0) (TimeStamp.new 0 1 0) 24 =
          (((TimeStamp.new 0 0 12).as_num_frames 24 : ℚ)
              - ((TimeStamp.new 0 0 0).as_num_frames 24 : ℚ))
            / (((TimeStamp.new 0 1 0).as_num_frames 24 : ℚ)
              - ((TimeStamp.new 0 0 0).as_num_frames 24 : ℚ))
        ∧ 0 ≤ Interpolator.compute_progress (TimeStamp.new 0 0 12)
            (TimeStamp.new 0 0 0) (TimeStamp.new 0 1 0) 24
        ∧ Interpolator.compute_progress (TimeStamp.new 0 0 12)
            (TimeStamp.new 0 0 0) (TimeStamp.new 0 1 0) 24 ≤ 1) :=
  ⟨(compute_progress_clamps (TimeStamp.new 0 0 5) (TimeStamp.new 0 1 0)
      (TimeStamp.new 0 1 0) 24).1 rfl,
    (compute_progress_clamps (TimeStamp.new 0 0 0) (TimeStamp.new 0 1 0)
      (TimeStamp.new 0 2 0) 24).2.1 (by decide) (by decide),
    (compute_progress_clamps (TimeStamp.new 0 2 0) (TimeStamp.new 0 0 0)
      (TimeStamp.new 0 1 0) 24).2.2.1 (by decide) (by decide) (by decide),
    (compute_progress_clamps (TimeStamp.new 0 0 12) (TimeStamp.new 0 0 0)
      (TimeStamp.new 0 1 0) 24).2.2.2.1 (by decide) (by decide)⟩

/-- C7: every easing function clamps its input to `[0,1]` before applying
its formula, maps `0` to `0` and `1` to `1` exactly, and is non-decreasing
over `[0,1]`. -/
theorem ease_spec (f : EasingFunction) :
    f.ease 0 = 0 ∧ f.ease 1 = 1
    ∧ (∀ t u : ℚ, 0 ≤ t → t ≤ u → u ≤ 1 → f.ease t ≤ f.ease u)
    ∧ (∀ t : ℚ, f.ease t = f.ease (clamp01 t)) :=
  ⟨ease_zero f, ease_one f, fun _ _ _ h _ => ease_mono f h,
    fun t => ease_clamp f t⟩

/-- C7 witness: concrete instance of `ease_spec`. -/
theorem ease_spec_witness :
    EasingFunction.EaseIn.ease 0 = 0
    ∧ EasingFunction.EaseIn.ease 1 = 1
    ∧ EasingFunction.EaseInOut.ease (1/4) ≤ EasingFunction.EaseInOut.ease (3/4) :=
  ⟨(ease_spec .EaseIn).1, (ease_spec .EaseIn).2.1,
    (ease_spec .EaseInOut).2.2.1 (1/4) (3/4) (by norm_num) (by norm_num)
      (by norm_num)⟩

/-- C9: `compute_progress` only reaches its division when the current frame
count lies strictly between the start's and the end's, where the divisor is
strictly positive; whenever that strict bracketing fails the result is `0`
or `1`, in particular for structurally distinct timestamps denoting the same
frame count. -/
theorem compute_progress_division_guard (current start end_ : TimeStamp)
    (fps : Nat) :
    (¬ (start.as_num_frames fps < current.as_num_frames fps
          ∧ current.as_num_frames fps < end_.as_num_frames fps) →
        Interpolator.compute_progress current start end_ fps = 0
        ∨ Interpolator.compute_progress current start end_ fps = 1)
    ∧ (start.as_num_frames fps < current.as_num_frames fps →
        current.as_num_frames fps < end_.as_num_frames fps →
        0 < (end_.as_num_frames fps : ℚ) - (start.as_num_frames fps : ℚ)
        ∧ Interpolator.compute_progress current start end_ fps =
            ((current.as_num_frames fps : ℚ) - (start.as_num_frames fps : ℚ))
              / ((end_.as_num_frames fps : ℚ)
                - (start.as_num_frames fps : ℚ)))
    ∧ (start ≠ end_ →
        start.as_num_frames fps = end_.as_num_frames fps →
        Interpolator.compute_progress current start end_ fps = 0
        ∨ Interpolator.compute_progress current start end_ fps = 1) := by
  refine ⟨?_, ?_, ?_⟩
  · intro hno
    by_cases hEq : start = end_
    · subst hEq
      right
      exact compute_progress_start_end current start fps
    · by_cases hle : current.as_num_frames fps ≤ start.as_num_frames fps
      · left
        exact compute_progress_before current start end_ fps hEq hle
      · right
        have h1 : start.as_num_frames fps < current.as_num_frames fps :=
          not_le.mp hle
        have h2 : end_.as_num_frames fps ≤ current.as_num_frames fps := by
          by_contra hcon
          exact hno ⟨h1, not_le.mp hcon⟩
        exact compute_progress_after current start end_ fps hEq h1 h2
  · intro h1 h2
    have hs : ((start.as_num_frames fps : ℚ) < (current.as_num_frames fps : ℚ)) := by
      exact_mod_cast h1
    have he : ((current.as_num_frames fps : ℚ) < (end_.as_num_frames fps : ℚ)) := by
      exact_mod_cast h2
    exact ⟨by linarith, compute_progress_mid current start end_ fps h1 h2⟩
  · intro hne hEqf
    by_cases hle : current.as_num_frames fps ≤ start.as_num_frames fps
    · left
      exact compute_progress_before current start end_ fps hne hle
    · right
      have h2 : end_.as_num_frames fps ≤ current.as_num_frames fps := by omega
      exact compute_progress_after current start end_ fps hne
        (not_le.mp hle) h2

/-- C9 witness: concrete instances of `compute_progress_division_guard`. -/
theorem compute_progress_division_guard_witness :
    (Interpolator.compute_progress (TimeStamp.new 0 0 0) (TimeStamp.new 0 1 0)
        (TimeStamp.new 0 2 0) 24 = 0
      ∨ Interpolator.compute_progress (TimeStamp.new 0 0 0)
        (TimeStamp.new 0 1 0) (TimeStamp.new 0 2 0) 24 = 1)
    ∧ (0 < ((TimeStamp.new 0 1 0).as_num_frames 24 : ℚ)
          - ((TimeStamp.new 0 0 0).as_num_frames 24 : ℚ)
        ∧ Interpolator.compute_progress (TimeStamp.new 0 0 12)
            (TimeStamp.new 0 0 0) (TimeStamp.new 0 1 0) 24 =
            (((TimeStamp.new 0 0 12).as_num_frames 24 : ℚ)
                - ((TimeStamp.new 0 0 0).as_num_frames 24 : ℚ))
              / (((TimeStamp.new 0 1 0).as_num_frames 24 : ℚ)
                - ((TimeStamp.new 0 0 0).as_num_frames 24 : ℚ)))
    ∧ (Interpolator.compute_progress (TimeStamp.new 0 0 5)
          (TimeStamp.new 0 1 0) (TimeStamp.new 0 0 24) 24 = 0
      ∨ Interpolator.compute_progress (TimeStamp.new 0 0 5)
          (TimeStamp.new 0 1 0) (TimeStamp.new 0 0 24) 24 = 1) :=
  ⟨(compute_progress_division_guard (TimeStamp.new 0 0 0) (TimeStamp.new 0 1 0)
      (TimeStamp.new 0 2 0) 24).1 (by decide),
    (compute_progress_division_guard (TimeStamp.new 0 0 12)
      (TimeStamp.new 0 0 0) (TimeStamp.new 0 1 0) 24).2.1 (by decide)
      (by decide),
    (compute_progress_division_guard (TimeStamp.new 0 0 5)
      (TimeStamp.new 0 1 0) (TimeStamp.new 0 0 24) 24).2.2 (by decide)
      (by decide)⟩

theorem increment_no_carry (ts : TimeStamp) (fps : Nat)
    (h1 : ts.frame + 1 < fps) (h2 : ts.second ≤ 59) :
    ts.increment fps = TimeStamp.new ts.minute ts.second (ts.frame + 1) := by
  have hA : ¬ (ts.frame + 1 ≥ fps) := by omega
  have hB : ¬ (ts.second > 59) := by omega
  simp [TimeStamp.increment, TimeStamp.new, hA, hB]

theorem increment_frame_carry (ts : TimeStamp) (fps : Nat)
    (h1 : ts.frame + 1 ≥ fps) (h2 : ts.second + 1 ≤ 59) :
    ts.increment fps = TimeStamp.new ts.minute (ts.second + 1) 0 := by
  have hB : ¬ (ts.second + 1 > 59) := by omega
  simp [TimeStamp.increment, TimeStamp.new, h1, hB]

theorem increment_double_carry (ts : TimeStamp) (fps : Nat)
    (h1 : ts.frame + 1 ≥ fps) (h2 : ts.second + 1 > 59) :
    ts.increment fps = TimeStamp.new (ts.minute + 1) 0 0 := by
  simp [TimeStamp.increment, TimeStamp.new, h1, h2]

theorem increment_invariant (ts : TimeStamp) (fps : Nat) (hfps : 1 ≤ fps) :
    (ts.increment fps).frame < fps ∧ (ts.increment fps).second < 60 := by
  simp only [TimeStamp.increment]
  split_ifs <;> constructor <;> omega

/-- C3: for every timestamp and fps ≥ 1, `increment` keeps `frame < fps` and
`second < 60`; on in-range states it behaves as the three carry cases (no
carry, frame→second carry, double carry) and advances the frame count by
exactly one; in particular `new(0,0,fps-1)` increments to `new(0,1,0)` and
`new(0,59,fps-1)` to `new(1,0,0)`. -/
theorem increment_spec (ts : TimeStamp) (fps : Nat) (hfps : 1 ≤ fps) :
    ((ts.increment fps).frame < fps ∧ (ts.increment fps).second < 60)
    ∧ (ts.frame + 1 < fps → ts.second ≤ 59 →
        ts.increment fps = TimeStamp.new ts.minute ts.second (ts.frame + 1))
    ∧ (ts.frame + 1 = fps → ts.second < 59 →
        ts.increment fps = TimeStamp.new ts.minute (ts.second + 1) 0)
    ∧ (ts.frame + 1 = fps → ts.second = 59 →
        ts.increment fps = TimeStamp.new (ts.minute + 1) 0 0)
    ∧ (ts.frame < fps → ts.second < 60 →
        (ts.increment fps).as_num_frames fps = ts.as_num_frames fps + 1)
    ∧ (TimeStamp.new 0 0 (fps - 1)).increment fps = TimeStamp.new 0 1 0
    ∧ (TimeStamp.new 0 59 (fps - 1)).increment fps = TimeStamp.new 1 0 0 := by
  refine ⟨increment_invariant ts fps hfps, ?_, ?_, ?_, ?_, ?_, ?_⟩
  · exact increment_no_carry ts fps
  · intro h1 h2
    exact increment_frame_carry ts fps (by omega) (by omega)
  · intro h1 h2
    exact increment_double_carry ts fps (by omega) (by omega)
  · intro hf hs
    by_cases hcf : ts.frame + 1 ≥ fps
    · have hframe : fps = ts.frame + 1 := by omega
      by_cases hcs : ts.second + 1 > 59
      · have hsec : ts.second = 59 := by omega
        rw [increment_double_carry ts fps hcf hcs]
        simp only [TimeStamp.as_num_frames, TimeStamp.new]
        rw [hframe, hsec]
        ring
      · rw [increment_frame_carry ts fps hcf (by omega)]
        simp only [TimeStamp.as_num_frames, TimeStamp.new]
        rw [hframe]
        ring
    · rw [increment_no_carry ts fps (by omega) (by omega)]
      simp only [TimeStamp.as_num_frames, TimeStamp.new]
      ring
  · rw [increment_frame_carry (TimeStamp.new 0 0 (fps - 1)) fps
      (by simp [TimeStamp.new]; omega) (by simp [TimeStamp.new])]
    simp [TimeStamp.new]
  · rw [increment_double_carry (TimeStamp.new 0 59 (fps - 1)) fps
      (by simp [TimeStamp.new]; omega) (by simp [TimeStamp.new])]
    simp [TimeStamp.new]

/-- C3 witness: concrete instances of `increment_spec` at fps 24. -/
theorem increment_spec_witness :
    (((TimeStamp.new 7 30 12).increment 24).frame < 24
      ∧ ((TimeStamp.new 7 30 12).increment 24).second < 60)
    ∧ (TimeStamp.new 0 0 5).increment 24 = TimeStamp.new 0 0 6
    ∧ (TimeStamp.new 0 0 23).increment 24 = TimeStamp.new 0 1 0
    ∧ (TimeStamp.new 0 59 23).increment 24 = TimeStamp.new 1 0 0
    ∧ ((TimeStamp.new 0 0 5).increment 24).as_num_frames 24
        = (TimeStamp.new 0 0 5).as_num_frames 24 + 1
    ∧ (TimeStamp.new 0 0 23).increment 24 = TimeStamp.new 0 1 0
    ∧ (TimeStamp.new 0 59 23).increment 24 = TimeStamp.new 1 0 0 :=
  ⟨(increment_spec (TimeStamp.new 7 30 12) 24 (by decide)).1,
    (increment_spec (TimeStamp.new 0 0 5) 24 (by decide)).2.1 (by decide)
      (by decide),
    (increment_spec (TimeStamp.new 0 0 23) 24 (by decide)).2.2.1 (by decide)
      (by decide),
    (increment_spec (TimeStamp.new 0 59 23) 24 (by decide)).2.2.2.1 (by decide)
      (by decide),
    (increment_spec (TimeStamp.new 0 0 5) 24 (by decide)).2.2.2.2.1 (by decide)
      (by decide),
    (increment_spec (TimeStamp.new 0 0 23) 24 (by decide)).2.2.2.2.2.1,
    (increment_spec (TimeStamp.new 0 59 23) 24 (by decide)).2.2.2.2.2.2⟩

theorem deCasteljau_four {T : Type} [Interpolatable T] (p0 p1 p2 p3 : T)
    (t : ℚ) :
    deCasteljau [p0, p1, p2, p3] t =
      some (Interpolatable.lerp
        (Interpolatable.lerp (Interpolatable.lerp p0 p1 t)
          (Interpolatable.lerp p1 p2 t) t)
        (Interpolatable.lerp (Interpolatable.lerp p1 p2 t)
          (Interpolatable.lerp p2 p3 t) t) t) := by
  have h0 : deCasteljau [p0, p1, p2, p3] t
      = (dcLoop t [p0, p1, p2, p3]).head? := rfl
  rw [h0, dcLoop_step t _ (by simp)]
  simp only [pairLerp]
  rw [dcLoop_step t _ (by simp)]
  simp only [pairLerp]
  rw [dcLoop_step t _ (by simp)]
  simp only [pairLerp]
  rw [dcLoop_fix t _ (by simp)]
  rfl

/-- C4: evaluating the general Bezier variant over exactly the four points
`[p0, p1, p2, p3]` agrees with the optimized Cubic variant at every time and
fps (the generic De Casteljau reduction and the unrolled two-level cubic
lerp compute the same value, so the difference is within `1e-4`). -/
theorem bezier_four_matches_cubic (p0 p1 p2 p3 : ℚ)
    (start end_ time : TimeStamp) (fps : Nat) :
    ∃ v w,
      (Interpolator.Bezier [p0, p1, p2, p3] start end_).at time fps = some v
      ∧ (Interpolator.Cubic p0 p1 p2 p3 start end_).at time fps = some w
      ∧ |v - w| ≤ 1/10000 := by
  have hB := deCasteljau_four p0 p1 p2 p3
    (Interpolator.compute_progress time start end_ fps)
  have hC : (Interpolator.Cubic p0 p1 p2 p3 start end_).at time fps
      = some (Interpolatable.lerp
        (Interpolatable.lerp
          (Interpolatable.lerp p0 p1
            (Interpolator.compute_progress time start end_ fps))
          (Interpolatable.lerp p1 p2
            (Interpolator.compute_progress time start end_ fps))
          (Interpolator.compute_progress time start end_ fps))
        (Interpolatable.lerp
          (Interpolatable.lerp p1 p2
            (Interpolator.compute_progress time start end_ fps))
          (Interpolatable.lerp p2 p3
            (Interpolator.compute_progress time start end_ fps))
          (Interpolator.compute_progress time start end_ fps))
        (Interpolator.compute_progress time start end_ fps)) := rfl
  exact ⟨_, _, hB, hC, by rw [sub_self, abs_zero]; norm_num⟩

theorem dcLoop_length_one {T : Type} [Interpolatable T] (t : ℚ) :
    ∀ (n : Nat) (l : List T), l.length ≤ n → l ≠ [] → (dcLoop t l).length = 1
  | 0, l, h, hne => absurd (List.length_eq_zero.mp (Nat.le_zero.mp h)) hne
  | n + 1, l, h, hne => by
    by_cases hlen : l.length > 1
    · rw [dcLoop_step t l hlen]
      have hp := pairLerp_length t l
      apply dcLoop_length_one t n
      · omega
      · intro hnil
        rw [hnil] at hp
        simp at hp
        omega
    · rw [dcLoop_fix t l hlen]
      have hz : l.length ≠ 0 := fun h0 => hne (List.length_eq_zero.mp h0)
      omega

/-- C8: a Keyframes interpolator with an empty keyframe sequence cannot be
evaluated (the `panic!` is modelled as `none`); `de_casteljau` is fatal on
an empty point sequence, defined (returns `some`) on every sequence of
length ≥ 1, and a single point evaluates to itself for every parameter. -/
theorem empty_fatal_and_single_point :
    (∀ (easing : EasingFunction) (time : TimeStamp) (fps : Nat),
        (Interpolator.Keyframes ([] : List (TimeStamp × ℚ)) easing).at
          time fps = none)
    ∧ (∀ t : ℚ, deCasteljau ([] : List ℚ) t = none)
    ∧ (∀ (points : List ℚ) (t : ℚ), points ≠ [] →
        ∃ v, deCasteljau points t = some v)
    ∧ (∀ (p t : ℚ), deCasteljau [p] t = some p) := by
  refine ⟨fun _ _ _ => rfl, ?_, ?_, fun _ _ => rfl⟩
  · intro t
    have h0 : deCasteljau ([] : List ℚ) t = (dcLoop t []).head? := rfl
    rw [h0, dcLoop_fix t _ (by simp)]
    rfl
  · intro points t hne
    match points with
    | [p] => exact ⟨p, rfl⟩
    | p :: q :: rest =>
      have h0 : deCasteljau (p :: q :: rest) t
          = (dcLoop t (p :: q :: rest)).head? := rfl
      have hl : (dcLoop t (p :: q :: rest)).length = 1 :=
        dcLoop_length_one t (p :: q :: rest).length (p :: q :: rest) le_rfl
          (List.cons_ne_nil p (q :: rest))
      obtain ⟨x, hx⟩ := List.length_eq_one.mp hl
      exact ⟨x, by rw [h0, hx]; rfl⟩

/-- C8 witness: concrete instance of `empty_fatal_and_single_point` with a
non-empty point sequence. -/
theorem empty_fatal_and_single_point_witness :
    ∃ v, deCasteljau [(1 : ℚ), 2, 3] (1/2) = some v :=
  empty_fatal_and_single_point.2.2.1 [(1 : ℚ), 2, 3] (1/2) (by decide)

/-- C10: a Keyframes interpolator with exactly one keyframe returns that
keyframe's value at every time and fps: the scan always ends with
`next_idx == 0`, so the last (= only) keyframe's value is returned. -/
theorem keyframes_single_at {T : Type} [Interpolatable T] (t0 : TimeStamp)
    (v : T) (easing : EasingFunction) (time : TimeStamp) (fps : Nat) :
    (Interpolator.Keyframes [(t0, v)] easing).at time fps = some v := by
  simp only [Interpolator.at, kfScan]
  split <;> simp [kfScan]

/-- C1: the claim that a Keyframes interpolator returns the FIRST keyframe's
value when the time precedes the first keyframe's timestamp fails on the
code: the scan breaks at index 0 with `next_idx == 0`, which the
at-or-past-last check misreads as "no next keyframe found", so the LAST
keyframe's value is returned (the intended before-first branch is dead
code).  Here, evaluating at `0:00.0` before keyframes at `0:01.0` (value 1)
and `0:02.0` (value 2) yields 2, the last value, not 1. -/
theorem keyframes_before_first_returns_last :
    (Interpolator.Keyframes [(TimeStamp.new 0 1 0, (1 : ℚ)),
        (TimeStamp.new 0 2 0, 2)] .Linear).at (TimeStamp.new 0 0 0) 24
      = some 2
    ∧ (2 : ℚ) ≠ 1 := by
  constructor
  · norm_num [Interpolator.at, kfScan, TimeStamp.le, TimeStamp.lt,
      TimeStamp.ge, TimeStamp.gt, TimeStamp.new]
  · norm_num

theorem foldl_through {T : Type} (cs : List T) (b : InterpolatorBuilder T) :
    cs.foldl InterpolatorBuilder.through b =
      { b with control_points := b.control_points ++ cs } := by
  induction cs generalizing b with
  | nil => simp
  | cons c cs ih =>
    simp [List.foldl_cons, ih, InterpolatorBuilder.through]

theorem buildChain_eq {T : Type} (a b : T) (e : Option EasingFunction)
    (cs : List T) :
    buildChain a b e cs =
      { from_ := a, to_ := some b, easing := e, control_points := cs } := by
  cases e <;>
    simp [buildChain, foldl_through, Interpolator.from_,
      InterpolatorBuilder.to, InterpolatorBuilder.ease]

/-- C5: finalizing a staged construction `from(a).to(b)` with `k` `through`
calls and an optional `ease` selects the variant purely by control-point
count: `k = 0` gives Linear with the supplied easing (defaulting to Linear),
`k = 2` gives Cubic with the two control points in insertion order (easing
ignored), and any other `k` gives the general Bezier over
`[a, controls..., b]` (easing ignored). -/
theorem builder_over_variant_selection (a b : ℚ) (cs : List ℚ)
    (e : Option EasingFunction) (start end_ : TimeStamp) :
    (cs = [] → (buildChain a b e cs).over start end_ =
        some (.Linear a b start end_ (e.getD .Linear)))
    ∧ (∀ c1 c2 : ℚ, cs = [c1, c2] → (buildChain a b e cs).over start end_ =
        some (.Cubic a c1 c2 b start end_))
    ∧ (cs ≠ [] → cs.length ≠ 2 → (buildChain a b e cs).over start end_ =
        some (.Bezier (a :: (cs ++ [b])) start end_)) := by
  refine ⟨?_, ?_, ?_⟩
  · rintro rfl
    simp [buildChain_eq, InterpolatorBuilder.over]
  · rintro c1 c2 rfl
    simp [buildChain_eq, InterpolatorBuilder.over]
  · intro h0 h2
    rw [buildChain_eq]
    match cs, h0, h2 with
    | [c1], _, _ => simp [InterpolatorBuilder.over]
    | c1 :: c2 :: c3 :: rest, _, _ => simp [InterpolatorBuilder.over]
    | [c1, c2], _, h2 => exact absurd rfl h2

/-- C5 witness: concrete instances of `builder_over_variant_selection`:
no control points gives Linear, `through(3).through(7)` gives Cubic with
`p1 = 3`, `p2 = 7`, and a single `through(5)` gives Bezier. -/
theorem builder_over_variant_selection_witness :
    (buildChain (0 : ℚ) 10 (some .EaseInOut) []).over (TimeStamp.new 0 0 0)
        (TimeStamp.new 0 1 0)
      = some (.Linear 0 10 (TimeStamp.new 0 0 0) (TimeStamp.new 0 1 0)
          .EaseInOut)
    ∧ (buildChain (0 : ℚ) 10 none [3, 7]).over (TimeStamp.new 0 0 0)
        (TimeStamp.new 0 1 0)
      = some (.Cubic 0 3 7 10 (TimeStamp.new 0 0 0) (TimeStamp.new 0 1 0))
    ∧ (buildChain (0 : ℚ) 10 none [5]).over (TimeStamp.new 0 0 0)
        (TimeStamp.new 0 1 0)
      = some (.Bezier [0, 5, 10] (TimeStamp.new 0 0 0) (TimeStamp.new 0 1 0)) :=
  ⟨(builder_over_variant_selection 0 10 [] (some .EaseInOut)
      (TimeStamp.new 0 0 0) (TimeStamp.new 0 1 0)).1 rfl,
    (builder_over_variant_selection 0 10 [3, 7] none
      (TimeStamp.new 0 0 0) (TimeStamp.new 0 1 0)).2.1 3 7 rfl,
    (builder_over_variant_selection 0 10 [5] none
      (TimeStamp.new 0 0 0) (TimeStamp.new 0 1 0)).2.2 (by decide) (by decide)⟩
